import Mathlib

/-!
Verification of the spam-statistics aggregation engine.

The development shallowly embeds the statistics code of the repository
(`src/statistics.rs`, `src/spam.rs`, `src/main.rs`) in Lean:

* `chrono::NaiveDate` is modelled as `Int`, counting days of the proleptic
  Gregorian calendar from CE, so that day 1 is 0001-01-01 — a Monday.  With
  this convention `Datelike::weekday(date) as u64` (chrono's `Weekday` has
  `Mon = 0`, ..., `Sun = 6`) is `(d - 1) % 7`.
* `f64` spam scores are modelled as `ℚ`; the `as i32` cast is truncation
  toward zero, which on a rational `q` is `q.num.tdiv q.den`.
* Hash maps keyed by dates, integer bins or domain strings are always
  collected into a vector and sorted before use; because the keys of such a
  map are pairwise distinct, the sorted vector does not depend on the hash
  iteration order, and the embedding builds it directly from the
  deduplicated key list.
* Iterators are modelled as the lists they yield.
-/

namespace SpamStatistics

/-- Days from CE of the proleptic Gregorian calendar (chrono `NaiveDate`). -/
abbrev NaiveDate := Int

/-- `type SpamResult = f64;` — the score Rspamd assigned to an email,
modelled as an exact rational. -/
abbrev SpamResult := ℚ

/-- `type Occurrences = usize;` -/
abbrev Occurrences := Nat

/-- `struct SpamEmail` from `src/statistics.rs`.  The Rust field `from` is a
Lean keyword, so it is called `sender` here. -/
structure SpamEmail where
  date_received : NaiveDate
  spam_result : SpamResult
  is_spam : Bool
  sender : String
deriving DecidableEq

/-- Truncation toward zero: the Rust `as` cast from `f64` to `i32`
(`spam_result as SpamResultBin`), on an exact rational score. -/
def truncToward0 (q : ℚ) : Int :=
  q.num.tdiv (q.den : Int)

/-- `quantize_spam_results` from `src/statistics.rs` (lines 35–43):
`iter.map(|email| email.as_ref().spam_result as SpamResultBin)`. -/
def quantize_spam_results (l : List SpamEmail) : List Int :=
  l.map (fun e => truncToward0 e.spam_result)

/-- `struct SpamCount { spam: Occurrences, ham: Occurrences }`. -/
structure SpamCount where
  spam : Occurrences
  ham : Occurrences
deriving DecidableEq

/-- The per-day tally the `spam_counts` loop accumulates for one date `d`:
each email with `date_received == d` bumps `spam` if `is_spam` and `ham`
otherwise. -/
def spamCountOn (l : List SpamEmail) (d : NaiveDate) : SpamCount :=
  { spam := l.countP (fun e => decide (e.date_received = d) && e.is_spam)
    ham := l.countP (fun e => decide (e.date_received = d) && !e.is_spam) }

/-- `spam_counts` from `src/statistics.rs` (lines 51–70): a `HashMap` from
date to `SpamCount` built by one pass over the emails, then collected and
sorted by date.  The map has one entry per distinct observed date, so the
sorted vector is the sorted deduplicated date list paired with the tallies. -/
def spam_counts (l : List SpamEmail) : List (NaiveDate × SpamCount) :=
  ((l.map (fun e => e.date_received)).dedup.insertionSort (· ≤ ·)).map
    (fun d => (d, spamCountOn l d))

/-- `misclassification_rate` from `src/statistics.rs` (lines 73–83):
`spam_counts(iter).map(|(date, count)| (date, ham / (spam + ham)))`, the
`usize → f64` casts and the division modelled exactly in `ℚ`. -/
def misclassification_rate (l : List SpamEmail) : List (NaiveDate × ℚ) :=
  (spam_counts l).map
    (fun p => (p.1, (p.2.ham : ℚ) / ((p.2.spam : ℚ) + (p.2.ham : ℚ))))

/-- chrono's `Datelike::weekday(date) as u64`: the number of days since the
last Monday, because `Weekday` is `Mon = 0, ..., Sun = 6`. -/
def weekdayAsU64 (d : NaiveDate) : Int :=
  (d - 1) % 7

/-- `previous_sunday` from `src/statistics.rs` (lines 104–107):
`date.checked_sub_days(Days::new(current_weekday))` with
`current_weekday = Datelike::weekday(date) as u64`.  (The subtraction never
underflows for calendar dates, so the `unwrap` is elided.) -/
def previous_sunday (d : NaiveDate) : NaiveDate :=
  d - weekdayAsU64 d

/-- The in-place update `WeeklyBinIter::next` applies to each popped email:
`email.date_received = previous_sunday(&email.date_received)`. -/
def rebucket (e : SpamEmail) : SpamEmail :=
  { e with date_received := previous_sunday e.date_received }

/-- The comparator of `WeeklyBins::weekly_bins`:
`a.as_ref().date_received.cmp(&b.as_ref().date_received)`. -/
def dateLE (a b : SpamEmail) : Prop :=
  a.date_received ≤ b.date_received

instance : DecidableRel dateLE := fun a b =>
  inferInstanceAs (Decidable (a.date_received ≤ b.date_received))

/-- `weekly_bins` from `src/statistics.rs` (lines 148–158): collect the
iterator into a vector and sort it by `date_received` ascending; the result
is the backing vector of the returned `WeeklyBinIter`. -/
def weekly_bins (l : List SpamEmail) : List SpamEmail :=
  l.insertionSort dateLE

/-- Fully draining `WeeklyBinIter` (lines 116–127): `next` pops from the
back of the sorted vector and re-buckets the date, so the iterator yields
the reverse of the vector, each element re-bucketed. -/
def weeklyBinDrain (l : List SpamEmail) : List SpamEmail :=
  (weekly_bins l).reverse.map rebucket

/-- The cutoff computed by `WeeklyBinIter::take_weeks` (lines 133–141):
`previous_sunday(&now) - (num - 1) * DAYS_PER_WEEK` days, with `now`
passed explicitly as `today`.  For `num = 0` the source panics (`u64`
underflow feeding `checked_sub_days(...).unwrap()`), so the model is only
quoted at `1 ≤ num`. -/
def takeWeeksCutoff (today : NaiveDate) (num : Nat) : NaiveDate :=
  previous_sunday today - ((num : Int) - 1) * 7

/-- `take_weeks` (lines 133–141): drain the iterator through
`take_while(|e| e.date_received > earliest_date)`. -/
def take_weeks (today : NaiveDate) (num : Nat) (l : List SpamEmail) : List SpamEmail :=
  (weeklyBinDrain l).takeWhile (fun e => decide (takeWeeksCutoff today num < e.date_received))

/-- `into_bins` from `src/statistics.rs` (lines 169–186): a `HashMap` from
key to occurrence count built by one pass, collected and sorted by key.
The keys of the map are the distinct elements of the input and each maps to
its multiplicity, so the sorted vector is the sorted deduplicated key list
paired with the counts. -/
def into_bins {X : Type} [LinearOrder X] (l : List X) : List (X × Nat) :=
  (l.dedup.insertionSort (· ≤ ·)).map (fun k => (k, l.count k))

/-- The separator used by `top_offending_domains`. -/
def atSign : Char := '@'

/-- Rust's `str::split` on the one-character pattern `"@"`, modelled on the
underlying character list (which the kernel can evaluate). -/
def splitAddress (address : String) : List String :=
  (address.toList.splitOnP (fun c => c == atSign)).map (fun cs => String.mk cs)

/-- The domain extraction in the `top_offending_domains` loop
(`src/spam.rs`, lines 115–148): parse the sender as a `Mailbox` (the
external `email` crate's parser, abstracted as the oracle `parseMailbox`
returning the parsed address), split the address on `"@"`, skip the local
part (`address.next()`), and take the next chunk.  `none` means the record
goes to the `error_count` tally. -/
def extract_domain (parseMailbox : String → Option String) (sender : String) :
    Option String :=
  match parseMailbox sender with
  | none => none
  | some address => (splitAddress address)[1]?

/-- The filter at the head of `top_offending_domains`:
`iter.filter(|email| !email.as_ref().is_spam)`. -/
def misclassifiedOf (l : List SpamEmail) : List SpamEmail :=
  l.filter (fun e => !e.is_spam)

/-- The multiset of successfully extracted domains, one per misclassified
record whose sender parses. -/
def domainsOf (parseMailbox : String → Option String) (l : List SpamEmail) :
    List String :=
  (misclassifiedOf l).filterMap (fun e => extract_domain parseMailbox e.sender)

/-- The `HashMap<String, usize>` of `top_offending_domains` collected into a
vector and sorted by `counts.sort_by(|(_, one), (_, two)| two.cmp(one))`
(descending by count): one entry per distinct key, counting multiplicity.
The tie order among equal counts is the incidental hash-iteration order in
the source; the model fixes one order, which none of the theorems rely
on. -/
def rankDescending {β : Type} [DecidableEq β] (ds : List β) : List (β × Nat) :=
  (ds.dedup.map (fun d => (d, ds.count d))).insertionSort (fun a b => b.2 ≤ a.2)

/-- `top_offending_domains` from `src/spam.rs` (lines 115–148): the ranked
(domain, count) vector paired with `error_count`, the number of
misclassified records whose domain extraction failed (the source reports the
tally on stderr). -/
def top_offending_domains (parseMailbox : String → Option String)
    (l : List SpamEmail) : List (String × Nat) × Nat :=
  (rankDescending (domainsOf parseMailbox l),
   (misclassifiedOf l).countP (fun e => (extract_domain parseMailbox e.sender).isNone))

/-- The five chart images `spam_statistics` in `src/main.rs` can render. -/
inductive Chart
  | rspamdActions
  | spamResultDistribution
  | misclassificationRateChart
  | dailySpamResults
  | dailyReceivedSpam
deriving DecidableEq

/-- The observable outcome of one run of `spam_statistics`: which charts
were rendered, whether the `"No spam."` notice was printed, and whether the
report email was composed and handed to the SMTP transport. -/
structure ReportOutcome where
  images : List Chart
  no_data_notice : Bool
  email_sent : Bool
deriving DecidableEq

/-- The control flow of `spam_statistics` from `src/main.rs` (lines
82–153), with the I/O collaborators abstracted away: the Rspamd action pie
chart is rendered unconditionally; the four spam-derived charts are rendered
only when the loaded record collection is non-empty, the empty branch
printing `"No spam."`; the email is composed from the pie chart plus the
spam images and sent in every case. -/
def spam_statistics (spam_results : List SpamEmail) : ReportOutcome :=
  let images :=
    if !spam_results.isEmpty then
      [Chart.spamResultDistribution, Chart.misclassificationRateChart,
       Chart.dailySpamResults, Chart.dailyReceivedSpam]
    else []
  { images := Chart.rspamdActions :: images
    no_data_notice := spam_results.isEmpty
    email_sent := true }

/-! ### Concrete inputs used by witnesses and counterexamples -/

/-- Two spam emails with integer scores 0 and 5, both received on day 10. -/
def exScoresC1 : List SpamEmail :=
  [{ date_received := 10, spam_result := 0, is_spam := true, sender := "" },
   { date_received := 10, spam_result := 5, is_spam := true, sender := "" }]

/-- A spam record on day 1 and a ham record on day 3; day 2 has no record. -/
def exDatesC2 : List SpamEmail :=
  [{ date_received := 1, spam_result := 0, is_spam := true, sender := "" },
   { date_received := 3, spam_result := 0, is_spam := false, sender := "" }]

/-- A single spam record received on day 5. -/
def exSingleC4 : List SpamEmail :=
  [{ date_received := 5, spam_result := 0, is_spam := true, sender := "" }]

/-- A record on day 8 (a Monday), which is exactly the `take_weeks` cutoff
when `today = 10` and `num = 1`. -/
def exOnCutoff : SpamEmail :=
  { date_received := 8, spam_result := 0, is_spam := true, sender := "" }

/-- A record on day 10, strictly after that cutoff. -/
def exAfterCutoff : SpamEmail :=
  { date_received := 10, spam_result := 0, is_spam := true, sender := "" }

/-- A trivial `Mailbox` parse oracle: every sender string parses, and the
parsed address is the string itself. -/
def parseIdOracle : String → Option String := fun s => some s

/-- The domain shared by the two parseable senders below. -/
def xComDomain : String := "x.com"

/-- Two misclassified records from domain `x.com` and one with an
unparseable sender (no `"@"`). -/
def exSendersC6 : List SpamEmail :=
  [{ date_received := 1, spam_result := 0, is_spam := false, sender := "a@x.com" },
   { date_received := 1, spam_result := 0, is_spam := false, sender := "b@x.com" },
   { date_received := 1, spam_result := 0, is_spam := false, sender := "bad" }]

/-! ## Lemmas about `into_bins` -/

theorem mem_into_bins {X : Type} [LinearOrder X] {l : List X} {p : X × Nat} :
    p ∈ into_bins l ↔ p.1 ∈ l ∧ p.2 = l.count p.1 := by
  unfold into_bins
  constructor
  · intro hp
    obtain ⟨k, hk, rfl⟩ := List.mem_map.mp hp
    exact ⟨List.mem_dedup.mp ((List.mem_insertionSort _).mp hk), rfl⟩
  · intro hp
    obtain ⟨h1, h2⟩ := hp
    refine List.mem_map.mpr ⟨p.1, (List.mem_insertionSort _).mpr (List.mem_dedup.mpr h1), ?_⟩
    obtain ⟨a, b⟩ := p
    simp only at h2
    rw [h2]

theorem into_bins_keys {X : Type} [LinearOrder X] (l : List X) :
    (into_bins l).map Prod.fst = l.dedup.insertionSort (· ≤ ·) := by
  simp [into_bins, List.map_map, Function.comp_def]

theorem into_bins_keys_sorted {X : Type} [LinearOrder X] (l : List X) :
    ((into_bins l).map Prod.fst).Pairwise (· < ·) := by
  rw [into_bins_keys]
  have hnd : (l.dedup.insertionSort (· ≤ ·)).Nodup :=
    (List.perm_insertionSort _ _).nodup_iff.mpr (List.nodup_dedup l)
  exact (List.sorted_insertionSort _ l.dedup).lt_of_le hnd

theorem into_bins_length {X : Type} [LinearOrder X] (l : List X) :
    (into_bins l).length = l.dedup.length := by
  unfold into_bins
  rw [List.length_map, (List.perm_insertionSort _ _).length_eq]

/-- Claim C8: on the empty input, each distribution builder
(`quantize_spam_results`, `into_bins`, `misclassification_rate`) returns the
empty series; all three are total functions in the model, so no error or
panic is possible. -/
theorem empty_input_yields_empty_series :
    quantize_spam_results [] = [] ∧ into_bins ([] : List Int) = [] ∧
      misclassification_rate [] = [] :=
  ⟨rfl, rfl, rfl⟩

/-- Claim C9: for any finite list of totally-ordered keys, `into_bins`
returns exactly one pair per distinct input key (its length is the number of
distinct keys and its keys are strictly ascending, hence pairwise distinct),
each key paired with its multiplicity in the input; every key of the output
occurs in the input — so there is no gap-filling — and every input key
appears in the output. -/
theorem into_bins_distinct_sorted_counts {X : Type} [LinearOrder X] (l : List X) :
    (into_bins l).length = l.dedup.length ∧
      ((into_bins l).map Prod.fst).Pairwise (· < ·) ∧
      (∀ p ∈ into_bins l, p.1 ∈ l ∧ p.2 = l.count p.1) ∧
      (∀ x ∈ l, (x, l.count x) ∈ into_bins l) :=
  ⟨into_bins_length l, into_bins_keys_sorted l,
   fun _ hp => mem_into_bins.mp hp,
   fun _ hx => mem_into_bins.mpr ⟨hx, rfl⟩⟩

/-- Witness for C9 at the concrete input `[3, 1, 3]`. -/
theorem into_bins_distinct_sorted_counts_witness :
    ((3 : Int), 2) ∈ into_bins [3, 1, 3] ∧
      (into_bins ([3, 1, 3] : List Int)).length = 2 :=
  ⟨(into_bins_distinct_sorted_counts [3, 1, 3]).2.2.2 3 (by decide),
   (into_bins_distinct_sorted_counts ([3, 1, 3] : List Int)).1.trans (by decide)⟩

/-- Claim C1 (counterexample): bucketing the scores 0 and 5 through
`quantize_spam_results` and `into_bins` yields a series with 2 entries, not
the `max_bucket - min_bucket + 1 = 6` entries a dense, zero-filled series
would have: `into_bins` never fills the gap buckets 1–4. -/
theorem score_distribution_not_dense :
    into_bins (quantize_spam_results exScoresC1) = [(0, 1), (5, 1)] ∧
      ¬(into_bins (quantize_spam_results exScoresC1)).length = 6 := by
  constructor
  · decide
  · decide

/-- Claim C1 (amended): for every non-empty input, the score-distribution
series produced by `quantize_spam_results` followed by `into_bins` is
non-empty and sparse: it has exactly one entry per distinct observed bucket,
in strictly ascending bucket order, each bucket observed in the input
appears with its exact occurrence count, and no other bucket appears (gaps
between observed buckets are not zero-filled). -/
theorem score_distribution_per_observed_bucket (l : List SpamEmail) (h : l ≠ []) :
    into_bins (quantize_spam_results l) ≠ [] ∧
      ((into_bins (quantize_spam_results l)).map Prod.fst).Pairwise (· < ·) ∧
      (∀ p ∈ into_bins (quantize_spam_results l),
        p.1 ∈ quantize_spam_results l ∧ p.2 = (quantize_spam_results l).count p.1) ∧
      (∀ b ∈ quantize_spam_results l,
        (b, (quantize_spam_results l).count b) ∈ into_bins (quantize_spam_results l)) := by
  refine ⟨?_, into_bins_keys_sorted _, fun _ hp => mem_into_bins.mp hp,
    fun _ hb => mem_into_bins.mpr ⟨hb, rfl⟩⟩
  intro hnil
  have hq : quantize_spam_results l ≠ [] := by
    cases l with
    | nil => exact absurd rfl h
    | cons a t => simp [quantize_spam_results]
  have hlen := into_bins_length (quantize_spam_results l)
  rw [hnil] at hlen
  exact hq ((List.dedup_eq_nil _).mp (List.length_eq_zero.mp hlen.symm))

/-- Witness for the amended C1 at the concrete scores 0 and 5. -/
theorem score_distribution_per_observed_bucket_witness :
    ((5 : Int), 1) ∈ into_bins (quantize_spam_results exScoresC1) :=
  (score_distribution_per_observed_bucket exScoresC1 (by decide)).2.2.2 5 (by decide)

/-! ## Lemmas about `spam_counts` and `misclassification_rate` -/

theorem mem_spam_counts {l : List SpamEmail} {p : NaiveDate × SpamCount} :
    p ∈ spam_counts l ↔
      p.1 ∈ l.map (fun e => e.date_received) ∧ p.2 = spamCountOn l p.1 := by
  unfold spam_counts
  constructor
  · intro hp
    obtain ⟨d, hd, rfl⟩ := List.mem_map.mp hp
    exact ⟨List.mem_dedup.mp ((List.mem_insertionSort _).mp hd), rfl⟩
  · intro hp
    obtain ⟨h1, h2⟩ := hp
    refine List.mem_map.mpr ⟨p.1, (List.mem_insertionSort _).mpr (List.mem_dedup.mpr h1), ?_⟩
    obtain ⟨a, b⟩ := p
    simp only at h2
    rw [h2]

theorem spam_counts_keys_sorted (l : List SpamEmail) :
    ((spam_counts l).map Prod.fst).Pairwise (· < ·) := by
  have hkeys : (spam_counts l).map Prod.fst =
      (l.map (fun e => e.date_received)).dedup.insertionSort (· ≤ ·) := by
    simp [spam_counts, List.map_map, Function.comp_def]
  rw [hkeys]
  have hnd : ((l.map (fun e => e.date_received)).dedup.insertionSort (· ≤ ·)).Nodup :=
    (List.perm_insertionSort _ _).nodup_iff.mpr (List.nodup_dedup _)
  exact (List.sorted_insertionSort _ _).lt_of_le hnd

theorem spamCountOn_total_pos {l : List SpamEmail} {d : NaiveDate}
    (h : d ∈ l.map (fun e => e.date_received)) :
    0 < (spamCountOn l d).spam + (spamCountOn l d).ham := by
  obtain ⟨e, he, rfl⟩ := List.mem_map.mp h
  by_cases hs : e.is_spam
  · have hpos : 0 < (spamCountOn l e.date_received).spam :=
      List.countP_pos_iff.mpr ⟨e, he, by simp [hs]⟩
    exact Nat.lt_of_lt_of_le hpos (Nat.le_add_right _ _)
  · have hpos : 0 < (spamCountOn l e.date_received).ham :=
      List.countP_pos_iff.mpr ⟨e, he, by simp [hs]⟩
    exact Nat.lt_of_lt_of_le hpos (Nat.le_add_left _ _)

theorem rate_bounds {c : SpamCount} (h : c.spam + c.ham ≠ 0) :
    0 ≤ (c.ham : ℚ) / ((c.spam : ℚ) + (c.ham : ℚ)) ∧
      (c.ham : ℚ) / ((c.spam : ℚ) + (c.ham : ℚ)) ≤ 1 := by
  have hpos : (0 : ℚ) < (c.spam : ℚ) + (c.ham : ℚ) := by
    have h0 : 0 < c.spam + c.ham := Nat.pos_of_ne_zero h
    exact_mod_cast h0
  constructor
  · exact div_nonneg (by positivity) hpos.le
  · rw [div_le_one hpos]
    have h0 : (0 : ℚ) ≤ (c.spam : ℚ) := by positivity
    linarith

/-- Claim C2 (counterexample): with one record on day 1 and one on day 3,
`spam_counts` produces the two observed dates only; the series is not
contiguous (the entry after day 1 is day 3, not day 2), and no zero entry is
emitted for day 2. -/
theorem spam_counts_not_contiguous :
    (spam_counts exDatesC2).map Prod.fst = [1, 3] ∧
      ¬List.Chain' (fun a b => b = a + 1) ((spam_counts exDatesC2).map Prod.fst) := by
  have hk : (spam_counts exDatesC2).map Prod.fst = [1, 3] := by decide
  refine ⟨hk, ?_⟩
  rw [hk]
  intro hchain
  have h13 : (3 : NaiveDate) = 1 + 1 := (List.chain'_cons.mp hchain).1
  exact absurd h13 (by decide)

/-- Claim C2 (amended): for every input, the per-day date series
(`spam_counts`, and the misclassification-rate series derived from it) is
strictly ascending by date and contains exactly the observed dates: each
entry's date is the date of some input record, every input record's date
appears, and the rate series has the same dates in the same order.  Calendar
days between observed dates with no matching record are absent, not emitted
with count 0. -/
theorem spam_counts_sorted_observed (l : List SpamEmail) :
    ((spam_counts l).map Prod.fst).Pairwise (· < ·) ∧
      (∀ p ∈ spam_counts l,
        p.1 ∈ l.map (fun e => e.date_received) ∧ p.2 = spamCountOn l p.1) ∧
      (∀ d ∈ l.map (fun e => e.date_received), (d, spamCountOn l d) ∈ spam_counts l) ∧
      (misclassification_rate l).map Prod.fst = (spam_counts l).map Prod.fst :=
  ⟨spam_counts_keys_sorted l,
   fun _ hp => mem_spam_counts.mp hp,
   fun _ hd => mem_spam_counts.mpr ⟨hd, rfl⟩,
   by simp [misclassification_rate, List.map_map, Function.comp_def]⟩

/-- Witness for the amended C2 at records on days 1 and 3. -/
theorem spam_counts_sorted_observed_witness :
    ((3 : Int), spamCountOn exDatesC2 3) ∈ spam_counts exDatesC2 :=
  (spam_counts_sorted_observed exDatesC2).2.2.1 3 (by decide)

/-- Claim C4: every day present in the misclassification-rate series has a
per-day aggregate with `spam + ham ≠ 0` (a day appears only if at least one
record contributed), its rate is exactly `ham / (spam + ham)`, and that rate
lies in `[0, 1]`; conversely every entry of `spam_counts` gives rise to such
a rate entry, so the division's zero-denominator case is unreachable. -/
theorem misclassification_rate_unit_interval (l : List SpamEmail) (d : NaiveDate)
    (c : SpamCount) (h : (d, c) ∈ spam_counts l) :
    c.spam + c.ham ≠ 0 ∧
      (d, (c.ham : ℚ) / ((c.spam : ℚ) + (c.ham : ℚ))) ∈ misclassification_rate l ∧
      0 ≤ (c.ham : ℚ) / ((c.spam : ℚ) + (c.ham : ℚ)) ∧
      (c.ham : ℚ) / ((c.spam : ℚ) + (c.ham : ℚ)) ≤ 1 ∧
      (∀ p ∈ misclassification_rate l, ∃ c₂ : SpamCount,
        (p.1, c₂) ∈ spam_counts l ∧ c₂.spam + c₂.ham ≠ 0 ∧
        p.2 = (c₂.ham : ℚ) / ((c₂.spam : ℚ) + (c₂.ham : ℚ))) := by
  obtain ⟨hd, hc⟩ := mem_spam_counts.mp h
  dsimp only at hd hc
  subst hc
  have hsum : (spamCountOn l d).spam + (spamCountOn l d).ham ≠ 0 :=
    Nat.pos_iff_ne_zero.mp (spamCountOn_total_pos hd)
  refine ⟨hsum, List.mem_map_of_mem _ h, (rate_bounds hsum).1, (rate_bounds hsum).2, ?_⟩
  intro p hp
  obtain ⟨q, hq, rfl⟩ := List.mem_map.mp hp
  obtain ⟨hq1, hq2⟩ := mem_spam_counts.mp hq
  refine ⟨q.2, hq, ?_, rfl⟩
  rw [hq2]
  exact Nat.pos_iff_ne_zero.mp (spamCountOn_total_pos hq1)

/-- Witness for C4: a single spam record on day 5, whose aggregate is
`{spam := 1, ham := 0}`. -/
theorem misclassification_rate_unit_interval_witness :
    (0 : ℚ) ≤ ((SpamCount.mk 1 0).ham : ℚ) /
      (((SpamCount.mk 1 0).spam : ℚ) + ((SpamCount.mk 1 0).ham : ℚ)) :=
  (misclassification_rate_unit_interval exSingleC4 5 (SpamCount.mk 1 0)
    (by decide)).2.2.1

/-! ## Lemmas about the weekly re-bucketing transform -/

theorem previous_sunday_mono {a b : Int} (h : a ≤ b) :
    previous_sunday a ≤ previous_sunday b := by
  show a - (a - 1) % 7 ≤ b - (b - 1) % 7
  omega

theorem weekly_bins_sorted (l : List SpamEmail) :
    List.Sorted dateLE (weekly_bins l) := by
  haveI ht : IsTotal SpamEmail dateLE := ⟨fun a b => Int.le_total _ _⟩
  haveI htr : IsTrans SpamEmail dateLE := ⟨fun _ _ _ hab hbc => le_trans hab hbc⟩
  exact List.sorted_insertionSort dateLE l

theorem weekly_bins_perm (l : List SpamEmail) : (weekly_bins l).Perm l :=
  List.perm_insertionSort dateLE l

theorem weekly_bins_reverse_descending (l : List SpamEmail) :
    ((weekly_bins l).reverse).Pairwise
      (fun a b => b.date_received ≤ a.date_received) := by
  rw [List.pairwise_reverse]
  exact weekly_bins_sorted l

theorem weeklyBinDrain_descending (l : List SpamEmail) :
    (weeklyBinDrain l).Pairwise (fun a b => b.date_received ≤ a.date_received) := by
  unfold weeklyBinDrain
  rw [List.pairwise_map]
  exact (weekly_bins_reverse_descending l).imp fun hab => previous_sunday_mono hab

theorem takeWhile_eq_filter_of_pairwise {α : Type} {p : α → Bool} {l : List α}
    (h : l.Pairwise (fun a b => p b = true → p a = true)) :
    l.takeWhile p = l.filter p := by
  induction l with
  | nil => rfl
  | cons x xs ih =>
    obtain ⟨hx, hxs⟩ := List.pairwise_cons.mp h
    by_cases hpx : p x = true
    · rw [List.takeWhile_cons, List.filter_cons, if_pos hpx, if_pos hpx, ih hxs]
    · rw [List.takeWhile_cons, List.filter_cons, if_neg hpx, if_neg hpx]
      symm
      rw [List.filter_eq_nil_iff]
      exact fun b hb hpb => hpx (hx b hb hpb)

/-- Claim C3 (code bug): `previous_sunday` does not land on a Sunday.  Day 3
of the proleptic Gregorian calendar (0001-01-03) is a Wednesday
(`weekdayAsU64 = 2`); its preceding Sunday is day 0 (`weekdayAsU64 = 6`),
but `previous_sunday 3 = 1`, a Monday (`weekdayAsU64 = 0`) — chrono's
`Weekday as u64` counts days since Monday, so the function subtracts back to
the preceding-or-same Monday for every input, contradicting its own name and
doc comment. -/
theorem previous_sunday_returns_monday :
    previous_sunday 3 = 1 ∧ weekdayAsU64 3 = 2 ∧
      weekdayAsU64 (previous_sunday 3) = 0 ∧ weekdayAsU64 0 = 6 ∧
      previous_sunday 3 ≠ 0 ∧ ¬weekdayAsU64 (previous_sunday 3) = 6 := by
  decide

/-- Claim C5 (counterexample): a record whose re-bucketed date falls exactly
on the cutoff is dropped, not kept.  With `today = 10` and `num = 1` the
cutoff is day 8; the record `exOnCutoff` re-buckets to day 8 (day 8 maps to
itself) yet `take_weeks` returns the empty list, because the source filters
with the strict comparison `e.date_received > earliest_date`. -/
theorem take_weeks_drops_record_on_cutoff :
    takeWeeksCutoff 10 1 = 8 ∧
      weeklyBinDrain [exOnCutoff] = [exOnCutoff] ∧
      take_weeks 10 1 [exOnCutoff] = [] := by
  decide

/-- Claim C5 (amended): for every week count `num ≥ 1` (the source panics at
`num = 0`), `take_weeks` computes the cutoff as `num - 1` whole weeks before
the most recent week-start relative to `today`, and its output contains
exactly those re-bucketed records whose date is strictly after the cutoff:
records exactly on the cutoff are excluded along with everything earlier. -/
theorem take_weeks_keeps_strictly_after_cutoff (today : NaiveDate) (num : Nat)
    (l : List SpamEmail) (_hnum : 1 ≤ num) :
    take_weeks today num l =
      (weeklyBinDrain l).filter
        (fun e => decide (takeWeeksCutoff today num < e.date_received)) ∧
      ∀ e : SpamEmail, e ∈ take_weeks today num l ↔
        e ∈ weeklyBinDrain l ∧ takeWeeksCutoff today num < e.date_received := by
  have hfil : take_weeks today num l =
      (weeklyBinDrain l).filter
        (fun e => decide (takeWeeksCutoff today num < e.date_received)) := by
    unfold take_weeks
    apply takeWhile_eq_filter_of_pairwise
    refine (weeklyBinDrain_descending l).imp ?_
    intro a b hba hpb
    simp only [decide_eq_true_eq] at hpb ⊢
    exact lt_of_lt_of_le hpb hba
  refine ⟨hfil, fun e => ?_⟩
  rw [hfil, List.mem_filter]
  simp

/-- Witness for the amended C5: one record strictly inside the window. -/
theorem take_weeks_keeps_strictly_after_cutoff_witness :
    take_weeks 10 1 [exAfterCutoff] =
      (weeklyBinDrain [exAfterCutoff]).filter
        (fun e => decide (takeWeeksCutoff 10 1 < e.date_received)) :=
  (take_weeks_keeps_strictly_after_cutoff 10 1 [exAfterCutoff] (by decide)).1

/-- Claim C10: `weekly_bins` collects and sorts the input internally, so for
records supplied in any order the iterator yields a permutation of the input
(the same number of records before any truncation), its pre-re-bucketing
sequence is non-increasing in original `date_received`, and the yielded
(re-bucketed) records are likewise non-increasing in date. -/
theorem weekly_bins_descending_complete (l : List SpamEmail) :
    (weekly_bins l).Perm l ∧
      ((weekly_bins l).reverse).Pairwise
        (fun a b => b.date_received ≤ a.date_received) ∧
      weeklyBinDrain l = (weekly_bins l).reverse.map rebucket ∧
      (weeklyBinDrain l).Pairwise (fun a b => b.date_received ≤ a.date_received) ∧
      (weeklyBinDrain l).length = l.length := by
  refine ⟨weekly_bins_perm l, weekly_bins_reverse_descending l, rfl,
    weeklyBinDrain_descending l, ?_⟩
  unfold weeklyBinDrain
  rw [List.length_map, List.length_reverse, (weekly_bins_perm l).length_eq]

/-! ## Lemmas about the domain ranking and the report control flow -/

theorem length_filterMap_add_countP_isNone {α β : Type} (f : α → Option β)
    (l : List α) :
    (l.filterMap f).length + l.countP (fun a => (f a).isNone) = l.length := by
  induction l with
  | nil => rfl
  | cons x xs ih =>
    cases hfx : f x <;>
      simp [List.filterMap_cons, List.countP_cons, hfx] <;> omega

theorem rank_counts_sum {β : Type} [DecidableEq β] (ds : List β) :
    ((rankDescending ds).map Prod.snd).sum = ds.length := by
  unfold rankDescending
  have hperm : ((ds.dedup.map (fun d => (d, ds.count d))).insertionSort
      (fun a b => b.2 ≤ a.2)).Perm (ds.dedup.map (fun d => (d, ds.count d))) :=
    List.perm_insertionSort _ _
  rw [(hperm.map Prod.snd).sum_eq, List.map_map]
  exact List.sum_map_count_dedup_eq_length ds

theorem rank_counts_sorted {β : Type} [DecidableEq β] (ds : List β) :
    (rankDescending ds).Pairwise (fun a b : β × Nat => b.2 ≤ a.2) := by
  haveI ht : IsTotal (β × Nat) (fun a b => b.2 ≤ a.2) :=
    ⟨fun a b => (Nat.le_total a.2 b.2).symm⟩
  haveI htr : IsTrans (β × Nat) (fun a b => b.2 ≤ a.2) :=
    ⟨fun _ _ _ hab hbc => Nat.le_trans hbc hab⟩
  exact List.sorted_insertionSort _ _

theorem mem_rank_counts {β : Type} [DecidableEq β] {ds : List β} {p : β × Nat}
    (hp : p ∈ rankDescending ds) :
    p.1 ∈ ds ∧ p.2 = ds.count p.1 := by
  have hp2 : p ∈ ds.dedup.map (fun d => (d, ds.count d)) :=
    (List.perm_insertionSort _ _).mem_iff.mp hp
  obtain ⟨d, hd, rfl⟩ := List.mem_map.mp hp2
  exact ⟨List.mem_dedup.mp hd, rfl⟩

/-- Claim C6: the domain-offender ranking conserves records and is sorted:
the sum of all ranked per-domain counts plus the parse-failure tally equals
the number of input records with `is_spam == false`; every ranked domain
comes from a misclassified record whose sender parsed successfully — failed
records are tallied, not ranked; and the ranking is sorted descending by
count. -/
theorem top_offending_domains_conservation (parseMailbox : String → Option String)
    (l : List SpamEmail) :
    ((((top_offending_domains parseMailbox l).1.map Prod.snd).sum +
        (top_offending_domains parseMailbox l).2) =
      (l.filter (fun e => !e.is_spam)).length) ∧
      (top_offending_domains parseMailbox l).1.Pairwise
        (fun a b => b.2 ≤ a.2) ∧
      (∀ p ∈ (top_offending_domains parseMailbox l).1,
        ∃ e ∈ l, e.is_spam = false ∧
          extract_domain parseMailbox e.sender = some p.1) := by
  refine ⟨?_, rank_counts_sorted _, ?_⟩
  · show ((rankDescending (domainsOf parseMailbox l)).map Prod.snd).sum +
        (misclassifiedOf l).countP
          (fun e => (extract_domain parseMailbox e.sender).isNone) =
      (misclassifiedOf l).length
    rw [rank_counts_sum]
    exact length_filterMap_add_countP_isNone _ _
  · intro p hp
    obtain ⟨hp1, _⟩ := mem_rank_counts hp
    obtain ⟨e, he, hee⟩ := List.mem_filterMap.mp hp1
    obtain ⟨hel, hesp⟩ := List.mem_filter.mp he
    exact ⟨e, hel, by simpa using hesp, hee⟩

/-- Witness for C6: the identity parse oracle over two records from
`x.com` and one unparseable sender; the ranking is `[("x.com", 2)]` with a
parse-failure tally of 1, and `2 + 1 = 3` records have `is_spam == false`. -/
theorem top_offending_domains_conservation_witness :
    (((top_offending_domains parseIdOracle exSendersC6).1.map Prod.snd).sum +
        (top_offending_domains parseIdOracle exSendersC6).2) =
      (exSendersC6.filter (fun e => !e.is_spam)).length ∧
      (∃ e ∈ exSendersC6, e.is_spam = false ∧
        extract_domain parseIdOracle e.sender = some xComDomain) :=
  ⟨(top_offending_domains_conservation parseIdOracle exSendersC6).1,
   (top_offending_domains_conservation parseIdOracle exSendersC6).2.2
     (xComDomain, 2) (by decide)⟩

/-- Claim C7 (counterexample): on an empty spam-record collection,
`spam_statistics` does not short-circuit report generation: the Rspamd
action-breakdown image is still rendered and the report email is still
composed and sent, so the image list is non-empty. -/
theorem spam_statistics_empty_not_short_circuit :
    (spam_statistics []).images = [Chart.rspamdActions] ∧
      (spam_statistics []).images ≠ [] ∧
      (spam_statistics []).email_sent = true := by
  decide

/-- Claim C7 (amended): when the loaded spam-record collection is empty, the
four spam-derived charts are all skipped — no degenerate empty chart is
rendered — and the distinguished `"No spam."` notice is emitted; however the
report itself is still generated: the Rspamd action pie chart is rendered
and the email is composed and sent. -/
theorem spam_statistics_empty_skips_spam_charts :
    (spam_statistics []).no_data_notice = true ∧
      (spam_statistics []).images = [Chart.rspamdActions] ∧
      Chart.spamResultDistribution ∉ (spam_statistics []).images ∧
      Chart.misclassificationRateChart ∉ (spam_statistics []).images ∧
      Chart.dailySpamResults ∉ (spam_statistics []).images ∧
      Chart.dailyReceivedSpam ∉ (spam_statistics []).images ∧
      (spam_statistics []).email_sent = true := by
  decide

end SpamStatistics
